import Mathlib

/-!
A formal model of the research pipeline of this repository: the task
queue and state store (task_queue.py, state.py), the fetch stage with
its query-keyed cache and shared semaphore (tools.py), the ranking step
of the analysis stage and the policy-driven orchestrator loop
(engine.py, policy.py).

Redis values are modelled as a typed store (string / hash / list) with
the WRONGTYPE discipline of the real server.  Awaited client calls are
modelled as the operations they perform; the un-awaited redis calls of
tools.py are modelled as the coroutine objects they evaluate to.  Json
round-trips are identity, and python exceptions are values carrying
their str(e) message.
-/

namespace Researcher

/-- Source types, from models.py SourceType. -/
inductive SourceType where
  | web
  | wiki
  | academic
  | news
  | scholarly
deriving DecidableEq, Repr

/-- State the body of SearchTool.run (tools.py) could touch: the redis
database backing the cache, keyed by "search:" ++ query, and an
instrumentation counter of provider.search invocations.  As written the
code never reads or writes the cache — both redis calls lack await. -/
structure FetchState (α : Type) where
  cache : List (String × List α)
  calls : Nat
deriving DecidableEq, Repr

/-- A python exception value; msg is str(e), which is empty for an
exception constructed with no arguments. -/
structure PyExc where
  msg : String
deriving DecidableEq, Repr

/-- The coroutine object an un-awaited redis.asyncio call evaluates to:
tools.py line 80 binds cached_result = self.redis.get(cache_key) with no
await, so cached_result is a coroutine object, not the cached payload. -/
inductive PyCoroutine where
  | coroutine (call : String)
deriving DecidableEq, Repr

/-- Python truthiness of a coroutine object: always true — which is why
the cache-hit branch of tools.py is taken on every call. -/
def pyTruthy (c : PyCoroutine) : Bool :=
  match c with
  | .coroutine _ => true

/-- str(e) of the TypeError raised by json.loads when handed a coroutine
object instead of a string. -/
def jsonLoadsCoroutineError : PyExc :=
  ⟨"the JSON object must be str, bytes or bytearray, not coroutine"⟩

/-- SearchTool.run as the source executes it (tools.py lines 75-101):
line 80 binds the un-awaited redis get coroutine, line 81 finds it
truthy, and line 82 feeds it to json.loads, which raises TypeError on
every call — before the semaphore, any provider call or any cache
write.  The otherwise dead miss branch is kept as written: the
per-provider loop with its try/except, the truncation to 5, and the
setex on line 95, which is not awaited either and so writes nothing. -/
def searchToolRunActual {α : Type} (providers : List (String → Except String (List α)))
    (query : String) (source : SourceType) (st : FetchState α) :
    Except PyExc (List α × FetchState α) :=
  let cached_result := PyCoroutine.coroutine ("Redis.get search:" ++ query)
  if pyTruthy cached_result then
    .error jsonLoadsCoroutineError
  else
    let results := providers.foldl
      (fun acc provider =>
        match provider query with
        | .ok providerResults => acc ++ providerResults
        | .error _ => acc) []
    let finalResults := results.take 5
    .ok (finalResults, { st with calls := st.calls + providers.length })

/-- A value stored at a redis key: the server keeps strings, hashes and
lists as distinct types and answers WRONGTYPE when a command of one
family hits a key of another. -/
inductive RVal where
  | str (s : String)
  | hash (fields : List (String × String))
  | list (elems : List String)
deriving DecidableEq, Repr

/-- A redis database: an association of keys to typed values. -/
abbrev RStore := List (String × RVal)

/-- Errors the modelled redis commands can answer. -/
inductive RErr where
  | wrongtype
deriving DecidableEq, Repr

/-- The value currently stored at a key. -/
def rlookup (st : RStore) (k : String) : Option RVal :=
  (st.find? (fun p => p.1 == k)).map (fun p => p.2)

/-- Replace or create the value at a key. -/
def rset (st : RStore) (k : String) (v : RVal) : RStore :=
  (k, v) :: st.filter (fun p => p.1 != k)

/-- redis GET: a string read; WRONGTYPE on a hash or list key. -/
def rget (st : RStore) (k : String) : Except RErr (Option String) :=
  match rlookup st k with
  | none => .ok none
  | some (.str s) => .ok (some s)
  | some _ => .error .wrongtype

/-- Apply an HSET mapping to the fields of a hash, field by field. -/
def hsetFields (fs : List (String × String)) (m : List (String × String)) :
    List (String × String) :=
  m.foldl (fun acc fv => (fv.1, fv.2) :: acc.filter (fun p => p.1 != fv.1)) fs

/-- Read one field of a hash field list. -/
def hfield (fs : List (String × String)) (f : String) : Option String :=
  (fs.find? (fun p => p.1 == f)).map (fun p => p.2)

/-- redis HSET with a mapping: creates a hash at an absent key,
merges fields into an existing hash, WRONGTYPE otherwise. -/
def rhset (st : RStore) (k : String) (m : List (String × String)) :
    Except RErr RStore :=
  match rlookup st k with
  | none => .ok (rset st k (.hash (hsetFields [] m)))
  | some (.hash fs) => .ok (rset st k (.hash (hsetFields fs m)))
  | some _ => .error .wrongtype

/-- redis LPUSH of one element: creates a singleton list at an absent
key, prepends at a list key, WRONGTYPE otherwise. -/
def rlpush (st : RStore) (k : String) (x : String) : Except RErr RStore :=
  match rlookup st k with
  | none => .ok (rset st k (.list [x]))
  | some (.list xs) => .ok (rset st k (.list (x :: xs)))
  | some _ => .error .wrongtype

/-- redis BLPOP on a single key: takes the head of the list, answering
none when nothing is available within the timeout. -/
def rblpop (st : RStore) (k : String) : Except RErr (Option (String × RStore)) :=
  match rlookup st k with
  | none => .ok none
  | some (.list []) => .ok none
  | some (.list (x :: xs)) => .ok (some (x, rset st k (.list xs)))
  | some _ => .error .wrongtype

/-- The descriptor enqueue_task builds (task_queue.py lines 25-32); the
payload is kept in its serialized form. -/
structure TaskData where
  task_id : String
  task_type : String
  payload : String
  created_at : String
deriving DecidableEq, Repr

/-- json.dumps of the descriptor. -/
def encodeTaskData (t : TaskData) : String :=
  "\x7b\"task_id\": \"" ++ t.task_id ++ "\", \"task_type\": \"" ++ t.task_type
    ++ "\", \"payload\": " ++ t.payload ++ ", \"created_at\": \"" ++ t.created_at
    ++ "\"\x7d"

/-- First write of enqueue_task (task_queue.py line 34): await
redis.lpush on "task_queue" of the serialized descriptor. -/
def enqueueQueuePush (st : RStore) (t : TaskData) : Except RErr RStore :=
  rlpush st "task_queue" (encodeTaskData t)

/-- Second write of enqueue_task (task_queue.py lines 35-40): await
redis.hset on the key "task:" ++ task_id with the pending status and the
serialized descriptor. -/
def enqueueStoreWrite (st : RStore) (t : TaskData) : Except RErr RStore :=
  rhset st ("task:" ++ t.task_id)
    [("status", "pending"), ("data", encodeTaskData t)]

/-- enqueue_task (task_queue.py lines 23-41): push the descriptor onto
the queue, then write the pending hash, in that order. -/
def enqueueTask (st : RStore) (t : TaskData) : Except RErr RStore := do
  enqueueStoreWrite (← enqueueQueuePush st t) t

/-- A sequence of enqueue_task calls. -/
def enqueueSeq (st : RStore) (ts : List TaskData) : Except RErr RStore :=
  ts.foldlM enqueueTask st

/-- Repeated blpop of process_queue (task_queue.py line 47) with no
interleaved enqueues, collecting the delivered descriptors in order. -/
def drainQueue : RStore → Nat → List String
  | _, 0 => []
  | st, fuel + 1 =>
    match rblpop st "task_queue" with
    | .ok (some (x, st1)) => x :: drainQueue st1 fuel
    | _ => []

/-- The elements currently held by the pending queue. -/
def queueItems (st : RStore) : List String :=
  match rlookup st "task_queue" with
  | some (.list xs) => xs
  | _ => []

/-- One stored field of the hash at the key "task:" ++ task_id. -/
def taskField (st : RStore) (task_id f : String) : Option String :=
  match rlookup st ("task:" ++ task_id) with
  | some (.hash fs) => hfield fs f
  | _ => none

/-- Task statuses, state.py lines 9-13. -/
inductive TaskStatus where
  | pending
  | in_progress
  | completed
  | failed
deriving DecidableEq, Repr

/-- TaskState (state.py lines 15-23); timestamps kept as iso strings and
the data document in serialized form. -/
structure TaskState where
  task_id : String
  status : TaskStatus
  created_at : String
  updated_at : String
  data : String
  error : Option String
deriving DecidableEq, Repr

/-- StateManager.get_state (state.py lines 42-56): a string GET of
"task:" ++ task_id followed by json.loads and field extraction.  The
parse step is a parameter of the model: no code path of the repository
ever stores a string at this key, so it is unreachable, and the results
below hold for every possible parse function. -/
def getState (parse : String → Option TaskState) (st : RStore) (task_id : String) :
    Except RErr (Option TaskState) :=
  match rget st ("task:" ++ task_id) with
  | .error e => .error e
  | .ok none => .ok none
  | .ok (some s) => .ok (parse s)

/-- The per-descriptor body of process_queue (task_queue.py lines 62-86)
once a handler is registered for the task type: hset the in_progress
status, run the handler on the payload, then hset the terminal mapping —
completed with the serialized result and completed_at, or failed with
error = str(e) and failed_at.  now is the utcnow iso timestamp. -/
def processTask (handler : String → Except PyExc String)
    (st : RStore) (task_id payload now : String) : Except RErr RStore := do
  let st1 ← rhset st ("task:" ++ task_id) [("status", "in_progress")]
  match handler payload with
  | .ok r =>
    rhset st1 ("task:" ++ task_id)
      [("status", "completed"), ("result", r), ("completed_at", now)]
  | .error e =>
    rhset st1 ("task:" ++ task_id)
      [("status", "failed"), ("error", e.msg), ("failed_at", now)]

/-- Every key of the form "task:" ++ id is absent or holds a hash: the
shape enqueue_task and process_queue maintain. -/
def TaskKeysOK (st : RStore) : Prop :=
  ∀ id : String, rlookup st ("task:" ++ id) = none ∨
    ∃ fs, rlookup st ("task:" ++ id) = some (.hash fs)

/-- The pending queue either holds the list q or is absent with q = []. -/
def QueueIs (st : RStore) (q : List String) : Prop :=
  rlookup st "task_queue" = some (.list q) ∨
    (rlookup st "task_queue" = none ∧ q = [])

/-- One analyzed result row as built by the analyze branch of
_execute_research (engine.py lines 76-85); only the fields the ranking
reads are kept: the relevance score (a rational stand-in for the python
float) and the content payload. -/
structure ScoredResult where
  content : String
  relevance_score : ℚ
deriving DecidableEq, Repr

/-- The sort order of the ranking: a before b when the score of b is at
most the score of a (key=relevance_score, reverse=True). -/
def scoreOrder (a b : ScoredResult) : Prop :=
  b.relevance_score ≤ a.relevance_score

instance : DecidableRel scoreOrder :=
  fun a b => inferInstanceAs (Decidable (b.relevance_score ≤ a.relevance_score))

instance : IsTotal ScoredResult scoreOrder :=
  ⟨fun a b => le_total b.relevance_score a.relevance_score⟩

instance : IsTrans ScoredResult scoreOrder :=
  ⟨fun _ _ _ hab hbc => le_trans hbc hab⟩

/-- The sort of the analyze branch (engine.py lines 82-86): python
sorted with key=relevance_score and reverse=True is a stable sort,
modelled by the stable insertion sort under scoreOrder. -/
def rankResults (items : List ScoredResult) : List ScoredResult :=
  items.insertionSort scoreOrder

/-- The full rank-and-truncate step (engine.py lines 82-87): the sorted
list sliced to the caller max_results. -/
def analysisStage (items : List ScoredResult) (max_results : Nat) : List ScoredResult :=
  (rankResults items).take max_results

/-- Where one fetch operation stands relative to the shared
asyncio.Semaphore of SearchTool (tools.py lines 64-91): before the
async-with block, waiting on acquire, holding the permit — with at most
one of its strictly sequential provider.search calls in flight — or
finished after release. -/
inductive FetchPhase where
  | idle
  | waiting
  | holding (inCall : Bool)
  | done
deriving DecidableEq, Repr

/-- How many operations currently hold a semaphore permit. -/
def holdingCount (s : List FetchPhase) : Nat :=
  s.countP fun ph => match ph with | .holding _ => true | _ => false

/-- How many provider calls are currently in flight. -/
def inFlightCount (s : List FetchPhase) : Nat :=
  s.countP fun ph => match ph with | .holding true => true | _ => false

/-- Interleaving semantics of concurrent SearchTool.run invocations
sharing one semaphore of capacity maxConcurrent: an operation may start
waiting, acquire a permit only while fewer than maxConcurrent
operations hold one, start or finish a provider call while holding, and
release between provider calls. -/
inductive SemStep (maxConcurrent : Nat) : List FetchPhase → List FetchPhase → Prop where
  | start (l₁ l₂ : List FetchPhase) :
      SemStep maxConcurrent (l₁ ++ .idle :: l₂) (l₁ ++ .waiting :: l₂)
  | acquire (l₁ l₂ : List FetchPhase)
      (hfree : holdingCount (l₁ ++ l₂) < maxConcurrent) :
      SemStep maxConcurrent (l₁ ++ .waiting :: l₂) (l₁ ++ .holding false :: l₂)
  | callStart (l₁ l₂ : List FetchPhase) :
      SemStep maxConcurrent (l₁ ++ .holding false :: l₂) (l₁ ++ .holding true :: l₂)
  | callEnd (l₁ l₂ : List FetchPhase) :
      SemStep maxConcurrent (l₁ ++ .holding true :: l₂) (l₁ ++ .holding false :: l₂)
  | release (l₁ l₂ : List FetchPhase) :
      SemStep maxConcurrent (l₁ ++ .holding false :: l₂) (l₁ ++ .done :: l₂)

end Researcher

namespace Researcher

/-- C1: SearchTool.run never returns: the un-awaited redis get coroutine
bound on line 80 is truthy, so line 82 feeds it to json.loads, which
raises TypeError on every call — before any provider call, and before
the un-awaited setex could write anything — so neither a first nor a
second call with the same query can ever return an item list, and the
claimed identical second-call return cannot occur.  (A repeat with
identical arguments instead re-awaits the functools.lru_cache memoized,
already exhausted coroutine and raises RuntimeError; either way no list
is returned.) -/
theorem searchToolRun_always_raises {α : Type}
    (providers : List (String → Except String (List α)))
    (q : String) (s : SourceType) (st : FetchState α) :
    searchToolRunActual providers q s st = .error jsonLoadsCoroutineError ∧
    ∀ (items : List α) (st1 : FetchState α),
      searchToolRunActual providers q s st ≠ .ok (items, st1) :=
  ⟨rfl, fun _ _ h => Except.noConfusion h⟩

/-- C6: the per-provider try/except of tools.py lines 88-94 is dead
code: every run raises TypeError at the cache check before reaching the
provider loop, so when one provider among several would fail, the fetch
does not return the other providers' concatenated items — it raises,
with an outcome independent of every registered provider. -/
theorem provider_fault_tolerance_unreachable {α : Type}
    (pre post : List (String → Except String (List α)))
    (pBad : String → Except String (List α)) (err : String)
    (q : String) (s : SourceType) (st : FetchState α)
    (hbad : pBad q = .error err) :
    searchToolRunActual (pre ++ pBad :: post) q s st
      = .error jsonLoadsCoroutineError ∧
    searchToolRunActual (pre ++ pBad :: post) q s st
      = searchToolRunActual ([] : List (String → Except String (List α))) q s st :=
  ⟨rfl, rfl⟩

/-- Concrete instance: three registered providers, the middle one
raising, and the fetch still raises TypeError at the cache read instead
of returning the items of the two successes. -/
theorem provider_fault_tolerance_unreachable_witness :
    (fun _ : String => (Except.error "boom" : Except String (List Nat))) "q"
      = .error "boom" ∧
    searchToolRunActual ([fun _ => .ok [1, 2]] ++ (fun _ => .error "boom")
        :: [fun _ => .ok [3]]) "q" SourceType.web ⟨[], 0⟩
      = .error jsonLoadsCoroutineError :=
  ⟨rfl,
    (provider_fault_tolerance_unreachable [fun _ => .ok [1, 2]] [fun _ => .ok [3]]
      (fun _ => .error "boom") "boom" "q" .web ⟨[], 0⟩ rfl).1⟩

/-- find? is unchanged by a filter that keeps every possible match. -/
theorem find?_filter_of_imp {α : Type} (p r : α → Bool) (l : List α)
    (h : ∀ x, p x = true → r x = true) :
    (l.filter r).find? p = l.find? p := by
  induction l with
  | nil => rfl
  | cons a l ih =>
    by_cases hr : r a = true
    · by_cases hp : p a = true
      · simp [List.filter_cons, hr, List.find?_cons_of_pos, hp]
      · simp only [Bool.not_eq_true] at hp
        simp [List.filter_cons, hr, List.find?_cons_of_neg, hp, ih]
    · have hp : p a = false := by
        cases hpa : p a
        · rfl
        · exact absurd (h a hpa) hr
      simp [List.filter_cons, hr, List.find?_cons_of_neg, hp, ih]

/-- A key just set is looked up to the set value. -/
theorem rlookup_rset_self (st : RStore) (k : String) (v : RVal) :
    rlookup (rset st k v) k = some v := by
  simp [rlookup, rset]

/-- Setting one key leaves every other key unchanged. -/
theorem rlookup_rset_ne (st : RStore) (k k2 : String) (v : RVal) (h : k2 ≠ k) :
    rlookup (rset st k v) k2 = rlookup st k2 := by
  unfold rlookup rset
  rw [List.find?_cons_of_neg _ (by simp [Ne.symm h])]
  rw [find?_filter_of_imp _ _ _ (fun x hx => ?_)]
  simp only [beq_iff_eq] at hx
  simp [bne_iff_ne, hx, h]

/-- No per-task key collides with the key of the pending queue. -/
theorem taskKey_ne_queue (id : String) : ("task:" ++ id) ≠ "task_queue" := by
  intro h
  have hd : ("task:" ++ id).data = "task_queue".data := congrArg String.data h
  rw [String.data_append] at hd
  have h4 : ("task:".data ++ id.data)[4]? = "task_queue".data[4]? := by rw [hd]
  rw [List.getElem?_append] at h4
  simp at h4

/-- C2: enqueue_task stores the task under "task:" ++ id as a redis
hash, while StateManager.get_state reads the same key with a string GET,
which the server answers with WRONGTYPE on a hash; so for every task id
produced by enqueue_task the polling path get_research_status →
get_state raises instead of returning the Pending state the writer
stored, whatever the (unreachable) json parse would do. -/
theorem enqueue_then_getState_wrongtype (parse : String → Option TaskState)
    (st : RStore) (t : TaskData)
    (hq : rlookup st "task_queue" = none ∨
      ∃ xs, rlookup st "task_queue" = some (.list xs))
    (ht : rlookup st ("task:" ++ t.task_id) = none) :
    ∃ st1, enqueueTask st t = .ok st1 ∧
      getState parse st1 t.task_id = .error .wrongtype := by
  obtain ⟨q1, hpush⟩ : ∃ q1, enqueueQueuePush st t
      = .ok (rset st "task_queue" (.list q1)) := by
    rcases hq with h | ⟨xs, h⟩
    · exact ⟨[encodeTaskData t], by simp [enqueueQueuePush, rlpush, h]⟩
    · exact ⟨encodeTaskData t :: xs, by simp [enqueueQueuePush, rlpush, h]⟩
  have hmid : rlookup (rset st "task_queue" (.list q1)) ("task:" ++ t.task_id)
      = none := by
    rw [rlookup_rset_ne _ _ _ _ (taskKey_ne_queue t.task_id)]
    exact ht
  refine ⟨rset (rset st "task_queue" (.list q1)) ("task:" ++ t.task_id)
    (.hash (hsetFields [] [("status", "pending"), ("data", encodeTaskData t)])),
    ?_, ?_⟩
  · simp [enqueueTask, hpush, enqueueStoreWrite, rhset, hmid, Bind.bind, Except.bind]
  · simp [getState, rget, rlookup_rset_self]

/-- Concrete instance: enqueue on an empty store, then poll; the read
answers WRONGTYPE, never the stored Pending state. -/
theorem enqueue_then_getState_wrongtype_witness :
    ∃ st1, enqueueTask [] ⟨"task-1", "research", "1", "t0"⟩ = .ok st1 ∧
      getState (fun _ => none) st1 "task-1" = .error .wrongtype :=
  enqueue_then_getState_wrongtype (fun _ => none) [] ⟨"task-1", "research", "1", "t0"⟩
    (Or.inl rfl) rfl

/-- One enqueue_task prepends the serialized descriptor to the pending
queue and keeps every per-task key a hash. -/
theorem enqueueTask_queue (st : RStore) (t : TaskData) (q : List String)
    (hq : QueueIs st q) (hT : TaskKeysOK st) :
    ∃ st1, enqueueTask st t = .ok st1 ∧
      rlookup st1 "task_queue" = some (.list (encodeTaskData t :: q)) ∧
      TaskKeysOK st1 := by
  have hpush : enqueueQueuePush st t
      = .ok (rset st "task_queue" (.list (encodeTaskData t :: q))) := by
    rcases hq with h | ⟨h, rfl⟩
    · simp [enqueueQueuePush, rlpush, h]
    · simp [enqueueQueuePush, rlpush, h]
  have hmidT : ∀ id, rlookup (rset st "task_queue" (.list (encodeTaskData t :: q)))
      ("task:" ++ id) = rlookup st ("task:" ++ id) :=
    fun id => rlookup_rset_ne _ _ _ _ (taskKey_ne_queue id)
  obtain ⟨h0, hset⟩ : ∃ h0,
      enqueueStoreWrite (rset st "task_queue" (.list (encodeTaskData t :: q))) t
        = .ok (rset (rset st "task_queue" (.list (encodeTaskData t :: q)))
            ("task:" ++ t.task_id)
            (.hash (hsetFields h0 [("status", "pending"), ("data", encodeTaskData t)]))) := by
    rcases hT t.task_id with hnone | ⟨fs, hfs⟩
    · exact ⟨[], by simp [enqueueStoreWrite, rhset, hmidT t.task_id, hnone]⟩
    · exact ⟨fs, by simp [enqueueStoreWrite, rhset, hmidT t.task_id, hfs]⟩
  refine ⟨rset (rset st "task_queue" (.list (encodeTaskData t :: q)))
    ("task:" ++ t.task_id)
    (.hash (hsetFields h0 [("status", "pending"), ("data", encodeTaskData t)])),
    ?_, ?_, ?_⟩
  · simp [enqueueTask, hpush, Bind.bind, Except.bind, hset]
  · rw [rlookup_rset_ne _ _ _ _ (Ne.symm (taskKey_ne_queue t.task_id))]
    exact rlookup_rset_self _ _ _
  · intro id
    by_cases hid : ("task:" ++ id) = ("task:" ++ t.task_id)
    · right
      exact ⟨_, by rw [hid]; exact rlookup_rset_self _ _ _⟩
    · rw [rlookup_rset_ne _ _ _ _ hid, hmidT id]
      exact hT id

/-- A sequence of enqueue_task calls prepends the serialized
descriptors in order, leaving the queue in reverse enqueue order. -/
theorem enqueueSeq_queue (ts : List TaskData) : ∀ (st : RStore) (q : List String),
    QueueIs st q → TaskKeysOK st →
    ∃ st1, enqueueSeq st ts = .ok st1 ∧
      QueueIs st1 ((ts.map encodeTaskData).reverse ++ q) ∧
      TaskKeysOK st1 := by
  induction ts with
  | nil =>
    intro st q hq hT
    exact ⟨st, rfl, by simpa using hq, hT⟩
  | cons t ts ih =>
    intro st q hq hT
    obtain ⟨stA, hA, hAq, hAT⟩ := enqueueTask_queue st t q hq hT
    obtain ⟨st1, h1, h1q, h1T⟩ := ih stA (encodeTaskData t :: q) (Or.inl hAq) hAT
    refine ⟨st1, ?_, ?_, h1T⟩
    · show (t :: ts).foldlM enqueueTask st = .ok st1
      rw [List.foldlM_cons, hA]
      simpa [enqueueSeq] using h1
    · simpa [List.append_assoc] using h1q

/-- Draining a queue that holds xs delivers exactly xs, front first. -/
theorem drainQueue_of_list (xs : List String) : ∀ st : RStore,
    rlookup st "task_queue" = some (.list xs) →
    drainQueue st xs.length = xs := by
  induction xs with
  | nil =>
    intro st _
    rfl
  | cons x xs ih =>
    intro st h
    show drainQueue st (xs.length + 1) = x :: xs
    simp only [drainQueue, rblpop, h]
    exact congrArg (x :: ·) (ih _ (rlookup_rset_self _ _ _))

/-- C3: enqueue_task pushes with lpush and process_queue pops with blpop
at the same end of the list, so with no interleaved enqueues the
descriptors are delivered in last-in-first-out order: draining the queue
yields the serialized descriptors in reverse enqueue order, the most
recently enqueued first. -/
theorem queue_delivery_is_lifo (ts : List TaskData) :
    ∃ st1, enqueueSeq [] ts = .ok st1 ∧
      drainQueue st1 ts.length = (ts.map encodeTaskData).reverse := by
  obtain ⟨st1, hseq, hq, _⟩ :=
    enqueueSeq_queue ts [] [] (Or.inr ⟨rfl, rfl⟩) (fun _ => Or.inl rfl)
  refine ⟨st1, hseq, ?_⟩
  cases ts with
  | nil => rfl
  | cons t ts =>
    rcases hq with h | ⟨_, habs⟩
    · have hlen : ((t :: ts).map encodeTaskData).reverse.length = (t :: ts).length := by
        simp
      rw [List.append_nil] at h
      rw [← hlen]
      exact drainQueue_of_list _ _ h
    · exact absurd habs (by simp)

/-- C4: enqueue_task awaits the lpush before the hset, so the store
between the two writes is observable and violates the claimed
atomicity: the queue already holds the descriptor of task-1 while the
task store has no entry at all for it. -/
theorem enqueue_intermediate_state_not_atomic :
    ∃ stMid, enqueueQueuePush [] ⟨"task-1", "research", "1", "t0"⟩ = .ok stMid ∧
      queueItems stMid = [encodeTaskData ⟨"task-1", "research", "1", "t0"⟩] ∧
      rlookup stMid ("task:" ++ "task-1") = none :=
  ⟨rset [] "task_queue" (.list [encodeTaskData ⟨"task-1", "research", "1", "t0"⟩]),
    rfl, by decide, by decide⟩

/-- An HSET mapping that never mentions a field leaves that field of the
hash unchanged. -/
theorem hfield_hsetFields_not_mem (m : List (String × String)) :
    ∀ (fs : List (String × String)) (f : String),
    (∀ fv ∈ m, fv.1 ≠ f) → hfield (hsetFields fs m) f = hfield fs f := by
  induction m with
  | nil =>
    intro fs f _
    rfl
  | cons kv m ih =>
    intro fs f h
    show hfield (hsetFields ((kv.1, kv.2) :: fs.filter (fun p => p.1 != kv.1)) m) f
      = hfield fs f
    rw [ih _ _ (fun fv hfv => h fv (List.mem_cons_of_mem _ hfv))]
    have hk : kv.1 ≠ f := h kv (List.mem_cons_self _ _)
    unfold hfield
    rw [List.find?_cons_of_neg _ (by simp [hk])]
    rw [find?_filter_of_imp _ _ _ (fun x hx => ?_)]
    simp only [beq_iff_eq] at hx
    simp [bne_iff_ne, hx]
    exact Ne.symm hk

/-- C7 counterexample: python allows exceptions whose str is empty —
raise Exception() — and process_queue stores error = str(e) verbatim, so
a failed task can carry an empty error string, against the claim that
the stored error is always non-empty. -/
theorem failed_error_string_can_be_empty :
    ∃ st1, processTask (fun _ => .error ⟨""⟩) [] "task-1" "p" "t1" = .ok st1 ∧
      taskField st1 "task-1" "status" = some "failed" ∧
      taskField st1 "task-1" "error" = some "" ∧
      ("" : String).length = 0 :=
  ⟨_, rfl, by decide, by decide, rfl⟩

/-- C7 amended: on a handler exception the consumer loop does mark the
task failed, and the stored error field is exactly str(e) — hence
non-empty exactly when the message of the exception is non-empty. -/
theorem handler_exception_marks_failed
    (handler : String → Except PyExc String) (st : RStore)
    (task_id payload now : String) (e : PyExc)
    (ht : rlookup st ("task:" ++ task_id) = none ∨
      ∃ fs, rlookup st ("task:" ++ task_id) = some (.hash fs))
    (hh : handler payload = .error e) :
    ∃ st1, processTask handler st task_id payload now = .ok st1 ∧
      taskField st1 task_id "status" = some "failed" ∧
      taskField st1 task_id "error" = some e.msg := by
  obtain ⟨h0, hA⟩ : ∃ h0, rhset st ("task:" ++ task_id) [("status", "in_progress")]
      = .ok (rset st ("task:" ++ task_id)
          (.hash (hsetFields h0 [("status", "in_progress")]))) := by
    rcases ht with h | ⟨fs, h⟩
    · exact ⟨[], by simp [rhset, h]⟩
    · exact ⟨fs, by simp [rhset, h]⟩
  refine ⟨rset (rset st ("task:" ++ task_id)
      (.hash (hsetFields h0 [("status", "in_progress")]))) ("task:" ++ task_id)
      (.hash (hsetFields (hsetFields h0 [("status", "in_progress")])
        [("status", "failed"), ("error", e.msg), ("failed_at", now)])), ?_, ?_, ?_⟩
  · simp only [processTask]
    rw [hA]
    simp only [Bind.bind, Except.bind, hh]
    simp [rhset, rlookup_rset_self]
  · simp [taskField, rlookup_rset_self, hsetFields, hfield, List.filter_cons,
      List.find?]
  · simp [taskField, rlookup_rset_self, hsetFields, hfield, List.filter_cons,
      List.find?]

/-- Concrete instance of the amended C7: a handler raising an exception
with message boom leaves status failed and error boom. -/
theorem handler_exception_marks_failed_witness :
    ∃ st1, processTask (fun _ => .error ⟨"boom"⟩) [] "task-1" "p" "t1" = .ok st1 ∧
      taskField st1 "task-1" "status" = some "failed" ∧
      taskField st1 "task-1" "error" = some "boom" :=
  handler_exception_marks_failed (fun _ => .error ⟨"boom"⟩) [] "task-1" "p" "t1"
    ⟨"boom"⟩ (Or.inl rfl) rfl

/-- C8: none of the hset calls of the consumer loop mentions the
updated_at field, so the Pending→InProgress transition and the terminal
transition both leave updated_at exactly as it was — it never advances,
whether the handler returns or raises. -/
theorem process_never_writes_updated_at
    (handler : String → Except PyExc String) (st : RStore)
    (task_id payload now : String)
    (ht : rlookup st ("task:" ++ task_id) = none ∨
      ∃ fs, rlookup st ("task:" ++ task_id) = some (.hash fs)) :
    ∃ stMid st1,
      rhset st ("task:" ++ task_id) [("status", "in_progress")] = .ok stMid ∧
      processTask handler st task_id payload now = .ok st1 ∧
      taskField stMid task_id "updated_at" = taskField st task_id "updated_at" ∧
      taskField st1 task_id "updated_at" = taskField st task_id "updated_at" := by
  obtain ⟨h0, hA, hbase⟩ : ∃ h0,
      rhset st ("task:" ++ task_id) [("status", "in_progress")]
        = .ok (rset st ("task:" ++ task_id)
            (.hash (hsetFields h0 [("status", "in_progress")]))) ∧
      taskField st task_id "updated_at" = hfield h0 "updated_at" := by
    rcases ht with h | ⟨fs, h⟩
    · exact ⟨[], by simp [rhset, h], by simp [taskField, h, hfield]⟩
    · exact ⟨fs, by simp [rhset, h], by simp [taskField, h]⟩
  have hMid : taskField (rset st ("task:" ++ task_id)
      (.hash (hsetFields h0 [("status", "in_progress")]))) task_id "updated_at"
      = taskField st task_id "updated_at" := by
    rw [taskField, rlookup_rset_self, hbase]
    exact hfield_hsetFields_not_mem _ _ _ (by simp)
  cases hr : handler payload with
  | ok r =>
    refine ⟨_, rset (rset st ("task:" ++ task_id)
        (.hash (hsetFields h0 [("status", "in_progress")]))) ("task:" ++ task_id)
        (.hash (hsetFields (hsetFields h0 [("status", "in_progress")])
          [("status", "completed"), ("result", r), ("completed_at", now)])),
      hA, ?_, hMid, ?_⟩
    · simp only [processTask]
      rw [hA]
      simp only [Bind.bind, Except.bind, hr]
      simp [rhset, rlookup_rset_self]
    · have h1 := hfield_hsetFields_not_mem
        [("status", "completed"), ("result", r), ("completed_at", now)]
        (hsetFields h0 [("status", "in_progress")]) "updated_at" (by simp)
      have h2 := hfield_hsetFields_not_mem [("status", "in_progress")] h0
        "updated_at" (by simp)
      rw [taskField, rlookup_rset_self]
      exact h1.trans (h2.trans hbase.symm)
  | error e =>
    refine ⟨_, rset (rset st ("task:" ++ task_id)
        (.hash (hsetFields h0 [("status", "in_progress")]))) ("task:" ++ task_id)
        (.hash (hsetFields (hsetFields h0 [("status", "in_progress")])
          [("status", "failed"), ("error", e.msg), ("failed_at", now)])),
      hA, ?_, hMid, ?_⟩
    · simp only [processTask]
      rw [hA]
      simp only [Bind.bind, Except.bind, hr]
      simp [rhset, rlookup_rset_self]
    · have h1 := hfield_hsetFields_not_mem
        [("status", "failed"), ("error", e.msg), ("failed_at", now)]
        (hsetFields h0 [("status", "in_progress")]) "updated_at" (by simp)
      have h2 := hfield_hsetFields_not_mem [("status", "in_progress")] h0
        "updated_at" (by simp)
      rw [taskField, rlookup_rset_self]
      exact h1.trans (h2.trans hbase.symm)

/-- Concrete instance: a completed run of task-1 from the empty store
leaves updated_at absent before and after every transition. -/
theorem process_never_writes_updated_at_witness :
    ∃ stMid st1,
      rhset [] ("task:" ++ "task-1") [("status", "in_progress")] = .ok stMid ∧
      processTask (fun _ => .ok "r") [] "task-1" "p" "t1" = .ok st1 ∧
      taskField stMid "task-1" "updated_at" = taskField [] "task-1" "updated_at" ∧
      taskField st1 "task-1" "updated_at" = taskField [] "task-1" "updated_at" :=
  process_never_writes_updated_at (fun _ => .ok "r") [] "task-1" "p" "t1"
    (Or.inl rfl)

/-- Inserting an element satisfying p, which sorts strictly before every
element not satisfying p, puts it in front of every p element. -/
theorem filter_orderedInsert_of_pos {α : Type} (p : α → Bool) (r : α → α → Prop)
    [DecidableRel r] (a : α) (l : List α) (hpa : p a = true)
    (h : ∀ b, ¬ r a b → p b = false) :
    (List.orderedInsert r a l).filter p = a :: l.filter p := by
  induction l with
  | nil => simp [List.orderedInsert, hpa]
  | cons b l ih =>
    by_cases hr : r a b
    · simp [List.orderedInsert, hr, List.filter_cons, hpa]
    · simp [List.orderedInsert, hr, List.filter_cons, h b hr, ih]

/-- Inserting an element not satisfying p does not disturb the filter. -/
theorem filter_orderedInsert_of_neg {α : Type} (p : α → Bool) (r : α → α → Prop)
    [DecidableRel r] (a : α) (l : List α) (hpa : p a = false) :
    (List.orderedInsert r a l).filter p = l.filter p := by
  induction l with
  | nil => simp [List.orderedInsert, hpa]
  | cons b l ih =>
    by_cases hr : r a b
    · simp [List.orderedInsert, hr, List.filter_cons, hpa]
    · simp [List.orderedInsert, hr, List.filter_cons, ih]

/-- Stability of the ranking: within every class of equal relevance
scores, the sorted list keeps the input (first-seen) order. -/
theorem rankResults_filter_score (items : List ScoredResult) (s : ℚ) :
    (rankResults items).filter (fun x => decide (x.relevance_score = s))
      = items.filter (fun x => decide (x.relevance_score = s)) := by
  induction items with
  | nil => rfl
  | cons a l ih =>
    show (List.orderedInsert scoreOrder a (List.insertionSort scoreOrder l)).filter _ = _
    simp only [rankResults] at ih
    by_cases hpa : a.relevance_score = s
    · rw [filter_orderedInsert_of_pos _ scoreOrder a _ (by simp [hpa]) ?himp]
      · rw [ih]
        simp [List.filter_cons, hpa]
      case himp =>
        intro b hb
        have : a.relevance_score < b.relevance_score := by
          simpa [scoreOrder, not_le] using hb
        simp only [decide_eq_false_iff_not]
        intro hbs
        rw [hbs, hpa] at this
        exact lt_irrefl s this
    · rw [filter_orderedInsert_of_neg _ scoreOrder a _ (by simp [hpa]), ih]
      simp [List.filter_cons, hpa]

/-- C5: the analyze branch returns the scored items sorted by descending
relevance_score — a permutation of the input, sorted under scoreOrder,
with ties kept in input order — truncated to the caller max_results, so
its length is the minimum of the input length and max_results. -/
theorem analysisStage_sorted_stable_truncated (items : List ScoredResult)
    (max_results : Nat) :
    List.Sorted scoreOrder (rankResults items) ∧
    (rankResults items).Perm items ∧
    (∀ s : ℚ, (rankResults items).filter (fun x => decide (x.relevance_score = s))
        = items.filter (fun x => decide (x.relevance_score = s))) ∧
    analysisStage items max_results = (rankResults items).take max_results ∧
    (analysisStage items max_results).length = min items.length max_results := by
  refine ⟨List.sorted_insertionSort scoreOrder items,
    List.perm_insertionSort scoreOrder items,
    fun s => rankResults_filter_score items s, rfl, ?_⟩
  have hlen : (rankResults items).length = items.length :=
    (List.perm_insertionSort scoreOrder items).length_eq
  rw [analysisStage, List.length_take, hlen, Nat.min_comm]

/-- Calls in flight never exceed held permits: a provider call is only
in flight inside the async-with block. -/
theorem inFlight_le_holding (s : List FetchPhase) :
    inFlightCount s ≤ holdingCount s := by
  induction s with
  | nil => simp [inFlightCount, holdingCount]
  | cons a s ih =>
    cases a with
    | holding b =>
      cases b <;>
        simp [inFlightCount, holdingCount, List.countP_cons] at ih ⊢ <;> omega
    | idle =>
      simpa [inFlightCount, holdingCount, List.countP_cons] using ih
    | waiting =>
      simpa [inFlightCount, holdingCount, List.countP_cons] using ih
    | done =>
      simpa [inFlightCount, holdingCount, List.countP_cons] using ih

/-- Every semaphore step keeps the held permits within capacity. -/
theorem semStep_holding_le (maxConcurrent : Nat) (s s1 : List FetchPhase)
    (h : SemStep maxConcurrent s s1) (hs : holdingCount s ≤ maxConcurrent) :
    holdingCount s1 ≤ maxConcurrent := by
  cases h with
  | start l₁ l₂ =>
    simp [holdingCount, List.countP_append, List.countP_cons] at hs ⊢
    omega
  | acquire l₁ l₂ hfree =>
    simp [holdingCount, List.countP_append, List.countP_cons] at hfree ⊢
    omega
  | callStart l₁ l₂ =>
    simp [holdingCount, List.countP_append, List.countP_cons] at hs ⊢
    omega
  | callEnd l₁ l₂ =>
    simp [holdingCount, List.countP_append, List.countP_cons] at hs ⊢
    omega
  | release l₁ l₂ =>
    simp [holdingCount, List.countP_append, List.countP_cons] at hs ⊢
    omega

/-- C10: in every state reachable by interleaving any number of
SearchTool.run invocations that share the semaphore of capacity
maxConcurrent, the number of provider calls in flight never exceeds
maxConcurrent. -/
theorem semaphore_bounds_in_flight (maxConcurrent k : Nat) (s : List FetchPhase)
    (h : Relation.ReflTransGen (SemStep maxConcurrent)
      (List.replicate k .idle) s) :
    inFlightCount s ≤ maxConcurrent := by
  have hh : holdingCount s ≤ maxConcurrent := by
    induction h with
    | refl =>
      have : holdingCount (List.replicate k FetchPhase.idle) = 0 :=
        List.countP_eq_zero.mpr (fun a ha => by rw [List.eq_of_mem_replicate ha]; simp)
      omega
    | tail _ hstep ih => exact semStep_holding_le _ _ _ hstep ih
  exact le_trans (inFlight_le_holding s) hh

/-- Concrete instance: three idle fetch operations under capacity two
have no call in flight, within the bound. -/
theorem semaphore_bounds_in_flight_witness :
    inFlightCount (List.replicate 3 FetchPhase.idle) ≤ 2 :=
  semaphore_bounds_in_flight 2 3 (List.replicate 3 .idle) Relation.ReflTransGen.refl

end Researcher
